import Mathlib

/-!
Verification development for the projen task composition and execution
engine and its neighbouring components.

The task engine itself (Task model, Task Registry, Execution Runtime) and
the file-synthesis collaborator (`tryFindFile` / `tryRemoveFile`) are not
part of the source excerpt: only their tests and callers are.  Those parts
are therefore modelled from the specification (spec.md §3–§7 and §6), as
marked on each definition.  `renderLaunchConfig` and
`WorkflowActions.createPullRequest` are embedded directly from
`src/vscode/launch-config.ts`.
-/

namespace Projen

/-! ## Environment model (spec §3 `env`, §4.3 step 4) -/

/-- Value of an environment entry: either a string value or the "unset"
sentinel that removes a previously set key (spec §4.3 step 4). -/
inductive EnvValue where
  | val (s : String)
  | unset
deriving DecidableEq, Repr

/-- An ordered environment layer: insertion order is significant. -/
abbrev EnvLayer := List (String × EnvValue)

/-- An environment as observed by a subprocess: a partial map from
variable names to string values. -/
abbrev EnvMap := String → Option String

/-- Modelled from the spec: apply an ordered layer of entries on top of a
base environment, each later entry overriding any earlier entry with the
same key; an `unset` value removes the key rather than setting it to the
empty string (spec §4.3 step 4). -/
def applyLayer (base : EnvMap) (layer : EnvLayer) : EnvMap :=
  layer.foldl
    (fun acc kv q =>
      if q = kv.1 then
        match kv.2 with
        | .val s => some s
        | .unset => none
      else acc q)
    base

/-- Last binding of a key in an ordered layer (the one that wins). -/
def lastBinding (layer : EnvLayer) (k : String) : Option EnvValue :=
  (layer.reverse.find? (fun kv => kv.1 = k)).map (·.2)

/-! ## Task model (spec §3, §4.1) -/

/-- Modelled from the spec: a Step is a closed sum {Exec, Spawn, Builtin}
(spec §3 "Step", design note "tagged step variants"), with the per-step
`continueOnError` override of spec §3. -/
inductive Step where
  | exec (command : String) (env : EnvLayer) (cwd : Option String)
      (continueOnError : Bool)
  | spawn (target : String) (args : List String) (receiveArgs : Bool)
      (continueOnError : Bool)
  | builtin (name : String) (continueOnError : Bool)
deriving DecidableEq, Repr

/-- Per-step `continueOnError` flag of a step. -/
def Step.continueOnError : Step → Bool
  | .exec _ _ _ c => c
  | .spawn _ _ _ c => c
  | .builtin _ c => c

/-- Modelled from the spec: a Task is a named, mutable unit of work
(spec §3 "Task"): name, optional description, optional condition, ordered
env, optional cwd, task-level continueOnError default, ordered steps. -/
structure Task where
  name : String
  description : Option String
  condition : Option String
  env : EnvLayer
  cwd : Option String
  continueOnError : Bool
  steps : List Step
deriving DecidableEq, Repr

/-- Modelled from the spec: `reset()` clears the step list and condition,
allowing a caller to completely redefine a task previously registered by
another party (spec §4.1); no other field is touched. -/
def Task.reset (t : Task) : Task :=
  ⟨t.name, t.description, none, t.env, t.cwd, t.continueOnError, []⟩

/-! ## Task registry (spec §3 "Task Registry") -/

/-- Modelled from the spec: the Task Registry maps names to tasks; names
are unique within a project (spec §3). -/
abbrev Registry := List Task

/-- Modelled from the spec: `tryFind(name)` looks a task up by name,
returning none when absent (spec §3). -/
def tryFind (reg : Registry) (name : String) : Option Task :=
  reg.find? (fun t => t.name = name)

/-- Modelled from the spec: `removeTask(name)` removes the task with the
given name from the registry; it does not retroactively remove Spawn steps
in other tasks that reference it (spec §3). -/
def removeTask (reg : Registry) (name : String) : Registry :=
  reg.filter (fun t => t.name ≠ name)

/-! ## Execution runtime (spec §4.3) -/

/-- Modelled from the spec: fatal error kinds of the runtime
(spec §7): unknown task name, unknown builtin name, and a spawn chain that
revisits a task already on the active call stack, carrying the full
offending call-stack path. -/
inductive RunError where
  | unknownTask (name : String)
  | unknownBuiltin (name : String)
  | cyclicTaskGraph (path : List String)
deriving DecidableEq, Repr

/-- Modelled from the spec: outcome of running one task
(spec §4.3 `Outcome{exitCode, perStepResults}`): final exit code, the
recorded per-step exit codes in execution order, and whether the task was
skipped by its condition (a skipped task counts as success). -/
structure Outcome where
  exitCode : Nat
  stepResults : List Nat
  skipped : Bool
deriving DecidableEq, Repr

/-- Modelled from the spec: the execution context the runtime works in:
a shell oracle giving the exit code of a command run with a given
environment and working directory, the builtin registry (spec §4.2), the
ambient process environment and the project-wide environment. -/
structure Ctx where
  shell : String → EnvMap → Option String → Nat
  builtins : List (String × (EnvMap → Nat))
  ambient : EnvMap
  projectEnv : EnvLayer

/-- Modelled from the spec: the task's effective environment — ambient
process environment, then the project-wide environment, then the
task-level env, in insertion order (spec §4.3 step 4). -/
def taskEnv (ctx : Ctx) (t : Task) : EnvMap :=
  applyLayer (applyLayer ctx.ambient ctx.projectEnv) t.env

/-- Modelled from the spec: the environment an Exec step observes — the
step-level env merged over the task-level computation (spec §4.3 step 5,
Exec). -/
def effectiveEnv (ctx : Ctx) (t : Task) (stepEnv : EnvLayer) : EnvMap :=
  applyLayer (taskEnv ctx t) stepEnv

/-- Modelled from the spec: execute one step (spec §4.3 step 5), given
`recur` to run a spawned task (the call stack handed to it already holds
the current task's name).  Returns `none` when the recursion fuel inside
`recur` ran out, `some (.error e)` for a fatal runtime error, and
`some (.ok code)` for the step's recorded exit code. -/
def execStep (ctx : Ctx)
    (recur : List String → List String → String → Option (Except RunError Outcome))
    (t : Task) (tenv : EnvMap) (stack : List String) (args : List String) :
    Step → Option (Except RunError Nat)
  | .exec cmd senv scwd _ =>
      some (.ok (ctx.shell cmd (applyLayer tenv senv) (scwd.orElse fun _ => t.cwd)))
  | .spawn target targs receiveArgs _ =>
      match recur stack (targs ++ if receiveArgs then args else []) target with
      | none => none
      | some (.error e) => some (.error e)
      | some (.ok out) => some (.ok out.exitCode)
  | .builtin bname _ =>
      match ctx.builtins.find? (fun b => b.1 = bname) with
      | none => some (.error (.unknownBuiltin bname))
      | some b => some (.ok (b.2 tenv))

/-- Modelled from the spec: execute a task's steps strictly in order
(spec §4.3 steps 5–6), accumulating recorded per-step exit codes; after
each step, if its exit code is non-zero and neither the step nor the task
is marked `continueOnError`, stop and return that exit code; on normal
completion return exit code 0.  Fatal runtime errors are never suppressed
(spec §7). -/
def runStepsWith (ctx : Ctx)
    (recur : List String → List String → String → Option (Except RunError Outcome))
    (t : Task) (tenv : EnvMap) (stack : List String) (args : List String) :
    List Step → List Nat → Option (Except RunError Outcome)
  | [], acc => some (.ok ⟨0, acc, false⟩)
  | s :: rest, acc =>
      match execStep ctx recur t tenv stack args s with
      | none => none
      | some (.error e) => some (.error e)
      | some (.ok code) =>
          if code ≠ 0 ∧ s.continueOnError = false ∧ t.continueOnError = false then
            some (.ok ⟨code, acc ++ [code], false⟩)
          else
            runStepsWith ctx recur t tenv stack args rest (acc ++ [code])

/-- Modelled from the spec: run a task by name (spec §4.3 steps 1–7).
Resolve the name (`UnknownTask` if absent); fail with `CyclicTaskGraph` —
naming the offending call-stack path, current stack plus the revisited
name — if the name is already on the call stack; evaluate the condition,
skipping the task (success, no recorded steps) when it exits non-zero;
otherwise run the steps with the task's name pushed onto the stack.
`fuel` bounds the spawn recursion depth; `none` means it ran out. -/
def runName (ctx : Ctx) (reg : Registry) :
    Nat → List String → List String → String → Option (Except RunError Outcome)
  | 0, _, _, _ => none
  | fuel + 1, stack, args, name =>
      match tryFind reg name with
      | none => some (.error (.unknownTask name))
      | some t =>
          if name ∈ stack then
            some (.error (.cyclicTaskGraph (stack ++ [name])))
          else
            let tenv := taskEnv ctx t
            let stack' := stack ++ [name]
            let go := fun (rest : List Step) =>
              runStepsWith ctx (fun st a n => runName ctx reg fuel st a n)
                t tenv stack' args rest []
            match t.condition with
            | some cond =>
                if ctx.shell cond tenv t.cwd ≠ 0 then
                  some (.ok ⟨0, [], true⟩)
                else go t.steps
            | none => go t.steps

/-- Modelled from the spec: the public `run(taskName, extraArgs?)`
operation (spec §4.3), entered with an empty call stack. -/
def run (ctx : Ctx) (reg : Registry) (fuel : Nat) (name : String)
    (extraArgs : List String) : Option (Except RunError Outcome) :=
  runName ctx reg fuel [] extraArgs name

/-! ## File-synthesis collaborator (spec §6, behaviour fixed by the tests
in `src/unnamed/part_001`) -/

/-- Paths are modelled as lists of path segments. -/
abbrev Segs := List String

/-- A path handed to the file-tree interface: either relative to the
project's output directory or absolute. -/
inductive PPath where
  | rel (segs : Segs)
  | abs (segs : Segs)
deriving DecidableEq, Repr

/-- Strip a leading run of segments: `dropLead? pre l` is `some rest` when
`l = pre ++ rest`, and `none` otherwise. -/
def dropLead? : Segs → Segs → Option Segs
  | [], l => some l
  | _ :: _, [] => none
  | p :: ps, x :: xs => if p = x then dropLead? ps xs else none

/-- Modelled from the spec: a nested sub-project, carrying its output
directory relative to the parent and its registered artifacts (as
project-relative path → artifact id); one level of nesting, as exercised
by the repository's tests. -/
structure SubProj where
  relOutdir : Segs
  files : List (Segs × Nat)
deriving DecidableEq, Repr

/-- Modelled from the spec: a project as seen by the file-synthesis
interface (spec §6): an absolute output directory, the artifacts
registered at project-relative paths, and nested sub-projects. -/
structure Proj where
  outdir : Segs
  files : List (Segs × Nat)
  subs : List SubProj
deriving DecidableEq, Repr

/-- Resolve a path argument to a project-relative path: a relative path
stands as is, an absolute path must lie under the project's output
directory. -/
def resolveRel (pr : Proj) : PPath → Option Segs
  | .rel p => some p
  | .abs p => dropLead? pr.outdir p

/-- First artifact registered at exactly the given relative path. -/
def lookupFile (files : List (Segs × Nat)) (p : Segs) : Option Nat :=
  (files.find? (fun f => f.1 = p)).map (·.2)

/-- Look a parent-relative path up inside one sub-project: the
sub-project's relative output directory must be a leading run of the
path; the rest is resolved against the sub-project's own files. -/
def SubProj.findIn (s : SubProj) (p : Segs) : Option Nat :=
  match dropLead? s.relOutdir p with
  | none => none
  | some rest => lookupFile s.files rest

/-- Modelled from the spec: `tryFindFile(pathOrAbsolute) -> artifact |
none`, resolving both relative-to-project and absolute paths, including
descending into nested sub-projects whose relative output directories
lead the path (spec §6 (b)). -/
def Proj.tryFindFile (pr : Proj) (p : PPath) : Option Nat :=
  match resolveRel pr p with
  | none => none
  | some rp =>
      match lookupFile pr.files rp with
      | some a => some a
      | none => pr.subs.findSome? (fun s => s.findIn rp)

/-- Remove the first artifact registered at exactly the given relative
path, returning it together with the remaining registrations. -/
def removeFile : List (Segs × Nat) → Segs → Option (Nat × List (Segs × Nat))
  | [], _ => none
  | f :: rest, p =>
      if f.1 = p then some (f.2, rest)
      else
        match removeFile rest p with
        | none => none
        | some (a, rest') => some (a, f :: rest')

/-- Remove a parent-relative path inside one sub-project. -/
def SubProj.removeIn (s : SubProj) (p : Segs) : Option (Nat × SubProj) :=
  match dropLead? s.relOutdir p with
  | none => none
  | some rest =>
      match removeFile s.files rest with
      | none => none
      | some (a, files') => some (a, ⟨s.relOutdir, files'⟩)

/-- Remove a path from the first sub-project that holds it. -/
def removeInSubs : List SubProj → Segs → Option (Nat × List SubProj)
  | [], _ => none
  | s :: rest, p =>
      match s.removeIn p with
      | some (a, s') => some (a, s' :: rest)
      | none =>
          match removeInSubs rest p with
          | none => none
          | some (a, rest') => some (a, s :: rest')

/-- Modelled from the spec: `tryRemoveFile(path) -> artifact | none`,
idempotent (second call returns none), enabling later registrations to
replace earlier ones at the same path (spec §6 (c)); like `tryFindFile`
it resolves relative and absolute paths and descends into sub-projects. -/
def Proj.tryRemoveFile (pr : Proj) (p : PPath) : Option Nat × Proj :=
  match resolveRel pr p with
  | none => (none, pr)
  | some rp =>
      match removeFile pr.files rp with
      | some (a, files') => (some a, ⟨pr.outdir, files', pr.subs⟩)
      | none =>
          match removeInSubs pr.subs rp with
          | none => (none, pr)
          | some (a, subs') => (some a, ⟨pr.outdir, pr.files, subs'⟩)

/-- Modelled from the spec: register a generated artifact at a
project-relative path (spec §6 (a)). -/
def Proj.addFile (pr : Proj) (rp : Segs) (a : Nat) : Proj :=
  ⟨pr.outdir, pr.files ++ [(rp, a)], pr.subs⟩

/-- Count of registrations at exactly the given relative path. -/
def countFile (files : List (Segs × Nat)) (p : Segs) : Nat :=
  (files.filter (fun f => f.1 = p)).length

/-- Count of registrations in one sub-project matching a parent-relative
path. -/
def SubProj.countIn (s : SubProj) (p : Segs) : Nat :=
  match dropLead? s.relOutdir p with
  | none => 0
  | some rest => countFile s.files rest

/-- Number of registered artifacts, anywhere in the project tree, that a
path argument matches. -/
def Proj.matchCount (pr : Proj) (p : PPath) : Nat :=
  match resolveRel pr p with
  | none => 0
  | some rp => countFile pr.files rp + (pr.subs.map (fun s => s.countIn rp)).sum

/-! ## VS Code launch configuration (src/vscode/launch-config.ts) -/

/-- Embeds the `Console` enum of `launch-config.ts`. -/
inductive ConsoleKind where
  | internalConsole
  | integratedTerminal
  | externalTerminal
deriving DecidableEq, Repr

/-- Embeds the `InternalConsoleOptions` enum of `launch-config.ts`. -/
inductive InternalConsoleKind where
  | neverOpen
  | openOnFirstSessionStart
  | openOnSessionStart
deriving DecidableEq, Repr

/-- Embeds the `Presentation` interface of `launch-config.ts`. -/
structure Presentation where
  hidden : Bool
  group : String
  order : Nat
deriving DecidableEq, Repr

/-- Embeds the `ServerReadyAction` interface of `launch-config.ts`. -/
structure ServerReadyAction where
  action : String
  pattern : Option String
  uriFormat : Option String
deriving DecidableEq, Repr

/-- Value of one `env` entry of a launch configuration as it appears in
the rendered JSON: a string, the boolean `false` (the caller's way to
request an unset), or JSON `null` (the rendered unset representation). -/
inductive LaunchEnvValue where
  | str (s : String)
  | fls
  | nullv
deriving DecidableEq, Repr

/-- Embeds the `VsCodeLaunchConfigurationEntry` interface of
`launch-config.ts`; the fields other than `env` are collected in this
record. -/
structure LaunchEntryCore where
  type : String
  request : String
  name : String
  args : Option (List String)
  debugServer : Option Nat
  internalConsoleOptions : Option InternalConsoleKind
  runtimeArgs : Option (List String)
  postDebugTask : Option String
  preLaunchTask : Option String
  presentation : Option Presentation
  program : Option String
  serverReadyAction : Option ServerReadyAction
  skipFiles : Option (List String)
  outFiles : Option (List String)
  url : Option String
  webRoot : Option String
  envFile : Option String
  cwd : Option String
  port : Option Nat
  stopOnEntry : Option Bool
  console : Option ConsoleKind
  disableOptimisticBPs : Option Bool
deriving DecidableEq, Repr

/-- Embeds `VsCodeLaunchConfigurationEntry`: the non-`env` fields plus the
optional ordered `env` record. -/
structure VsCodeLaunchConfigurationEntry where
  core : LaunchEntryCore
  env : Option (List (String × LaunchEnvValue))
deriving DecidableEq, Repr

/-- Per-value mapping used by `renderLaunchConfig`: `value === false ?
null : value`. -/
def renderLaunchEnvValue : LaunchEnvValue → LaunchEnvValue
  | .fls => .nullv
  | v => v

/-- Embeds `VsCodeLaunchConfig.renderLaunchConfig` (launch-config.ts lines
86–100): if `cfg.env` is absent return `cfg` itself; otherwise return a
copy of `cfg` whose `env` maps every key whose value is `false` to `null`
and keeps every other value. -/
def renderLaunchConfig (cfg : VsCodeLaunchConfigurationEntry) :
    VsCodeLaunchConfigurationEntry :=
  match cfg.env with
  | none => cfg
  | some envl =>
      ⟨cfg.core, some (envl.map (fun kv => (kv.1, renderLaunchEnvValue kv.2)))⟩

/-! ## WorkflowActions.createPullRequest (src/vscode/launch-config.ts,
second document, lines 259–305) -/

/-- Whitespace test used to model JavaScript `String.trimEnd`. -/
def isWsChar (c : Char) : Bool := c.isWhitespace

/-- Models `String.trimEnd`: remove trailing whitespace characters. -/
def trimEnd (s : List Char) : List Char :=
  (s.reverse.dropWhile isWsChar).reverse

/-- Models `endsWith(".")`: the last character is a period. -/
def endsWithDot (s : List Char) : Bool := s.getLast? == some '.'

/-- The normalized pull-request description: trailing whitespace removed
and a single period appended exactly when the trimmed text does not
already end with a period. -/
def normalizeDescription (s : List Char) : List Char :=
  let t := trimEnd s
  if endsWithDot t then t else t ++ ['.']

/-- String-level wrapper of `normalizeDescription`. -/
def normalizeDescriptionStr (s : String) : String :=
  ⟨normalizeDescription s.data⟩

/-- The `${{ github.server_url }}/${{ github.repository }}/actions/runs/${{ github.run_id }}`
context expression of `launch-config.ts` (braces escaped). -/
def runUrl : String :=
  "$\x7b\x7b github.server_url \x7d\x7d/$\x7b\x7b github.repository \x7d\x7d/actions/runs/$\x7b\x7b github.run_id \x7d\x7d"

/-- Inputs of `WorkflowActions.createPullRequest` that feed the commit
message and PR body. -/
structure CreatePullRequestOptions where
  workflowName : String
  pullRequestTitle : String
  pullRequestDescription : String
deriving DecidableEq, Repr

/-- The fields of the job step produced by
`WorkflowActions.createPullRequest` that this development tracks. -/
structure CreatePullRequestStep where
  uses : String
  commitMessage : String
  branch : String
  title : String
  body : String
deriving DecidableEq, Repr

/-- The PR body built from an already-normalized description
(launch-config.ts lines 275–283). -/
def prBodyFrom (workflowName desc : String) : String :=
  String.intercalate "\n"
    [desc ++ " See details in [workflow run].",
     "",
     "[Workflow Run]: " ++ runUrl,
     "",
     "------",
     "",
     "*Automatically created by projen via the \"" ++ workflowName
       ++ "\" workflow*"]

/-- Embeds `WorkflowActions.createPullRequest` (launch-config.ts lines
259–305): normalizes the description with the source's ternary —
`trimEnd().endsWith(".") ? trimEnd() : trimEnd() + "."` — and builds the
commit message and PR body from it. -/
def createPullRequest (o : CreatePullRequestOptions) : CreatePullRequestStep :=
  let pullRequestDescription : String :=
    if endsWithDot (trimEnd o.pullRequestDescription.data) then
      ⟨trimEnd o.pullRequestDescription.data⟩
    else
      ⟨trimEnd o.pullRequestDescription.data⟩ ++ "."
  let title := o.pullRequestTitle
  let description := prBodyFrom o.workflowName pullRequestDescription
  ⟨"peter-evans/create-pull-request@v4",
   title ++ "\n\n" ++ description,
   "github-actions/" ++ o.workflowName,
   title,
   description⟩

/-- Launch configuration core record used by the rendering witness. -/
def sampleLaunchCore : LaunchEntryCore :=
  ⟨"node", "launch", "Debug", none, none, none, none, none, none, none, none,
   none, none, none, none, none, none, none, none, none, none, none⟩

end Projen

namespace Projen

theorem applyLayer_apply (layer : EnvLayer) (base : EnvMap) (k : String) :
    applyLayer base layer k =
      match lastBinding layer k with
      | some (.val v) => some v
      | some .unset => none
      | none => base k := by
  induction layer generalizing base with
  | nil => simp [applyLayer, lastBinding]
  | cons kv rest ih =>
      show applyLayer _ rest k = _
      rw [ih]
      simp only [lastBinding, List.reverse_cons, List.find?_append]
      cases h : List.find? (fun kv => decide (kv.1 = k)) rest.reverse with
      | some e => simp only [h, Option.or, Option.map]
                  cases e.2 <;> rfl
      | none =>
          simp only [h, Option.or, Option.map]
          by_cases hk : kv.1 = k
          · simp [List.find?, hk]
            cases kv.2 <;> simp
          · simp [List.find?, hk]
            intro h'
            exact absurd h'.symm hk

theorem lastBinding_append (l₁ l₂ : EnvLayer) (k : String) :
    lastBinding (l₁ ++ l₂) k = (lastBinding l₂ k).or (lastBinding l₁ k) := by
  simp [lastBinding, List.reverse_append, List.find?_append]
  cases List.find? (fun kv => decide (kv.1 = k)) l₂.reverse <;> simp [Option.or]


/-- C8: `reset()` leaves the task with an empty step list and no condition; the name, description, env, cwd and continueOnError fields are not cleared. -/
theorem reset_spec (t : Task) :
    t.reset.steps = [] ∧ t.reset.condition = none ∧
    t.reset.name = t.name ∧ t.reset.description = t.description ∧
    t.reset.env = t.env ∧ t.reset.cwd = t.cwd ∧
    t.reset.continueOnError = t.continueOnError :=
  ⟨rfl, rfl, rfl, rfl, rfl, rfl, rfl⟩

/-- C3: the effective environment an Exec step observes is the ambient environment overlaid, in order, by the project-wide environment, the task-level env and the step-level env, later entries overriding earlier ones with the same key and the unset sentinel removing a key; with project env X=1, task env X=2, Y=3 and step env X=4 the step observes X=4 and Y=3 (and without the step override, X=2). -/
theorem env_layering_spec :
    (∀ (ctx : Ctx) (t : Task) (senv : EnvLayer) (k : String),
      effectiveEnv ctx t senv k =
        match lastBinding (ctx.projectEnv ++ (t.env ++ senv)) k with
        | some (.val v) => some v
        | some .unset => none
        | none => ctx.ambient k) ∧
    (∀ (ctx : Ctx) (t : Task) (k : String),
      effectiveEnv ctx t [(k, EnvValue.unset)] k = none) ∧
    (∀ (ctx : Ctx) (t : Task),
      ctx.projectEnv = [("X", EnvValue.val "1")] →
      t.env = [("X", EnvValue.val "2"), ("Y", EnvValue.val "3")] →
      effectiveEnv ctx t [("X", EnvValue.val "4")] "X" = some "4" ∧
      effectiveEnv ctx t [("X", EnvValue.val "4")] "Y" = some "3" ∧
      effectiveEnv ctx t [] "X" = some "2") := by
  have hchar : ∀ (ctx : Ctx) (t : Task) (senv : EnvLayer) (k : String),
      effectiveEnv ctx t senv k =
        match lastBinding (ctx.projectEnv ++ (t.env ++ senv)) k with
        | some (.val v) => some v
        | some .unset => none
        | none => ctx.ambient k := by
    intro ctx t senv k
    rw [effectiveEnv, taskEnv, applyLayer_apply, applyLayer_apply,
      applyLayer_apply, lastBinding_append, lastBinding_append]
    cases hs : lastBinding senv k with
    | some v => cases v <;> simp [Option.or]
    | none =>
        cases ht : lastBinding t.env k with
        | some v => cases v <;> simp [Option.or]
        | none =>
            cases hp : lastBinding ctx.projectEnv k with
            | some v => cases v <;> simp [Option.or]
            | none => simp [Option.or]
  refine ⟨hchar, ?_, ?_⟩
  · intro ctx t k
    rw [hchar, lastBinding_append, lastBinding_append]
    simp [lastBinding, List.find?]
  · intro ctx t hp ht
    refine ⟨?_, ?_, ?_⟩ <;> rw [hchar, hp, ht] <;> rfl


/-- C9: `renderLaunchConfig` returns the entry unchanged when `env` is absent; when `env` is present it preserves every other field and every key, maps each value that is the boolean false to null, and keeps each string value. -/
theorem renderLaunchConfig_spec :
    (∀ cfg : VsCodeLaunchConfigurationEntry,
      cfg.env = none → renderLaunchConfig cfg = cfg) ∧
    (∀ (cfg : VsCodeLaunchConfigurationEntry)
        (envl : List (String × LaunchEnvValue)),
      cfg.env = some envl →
      (renderLaunchConfig cfg).core = cfg.core ∧
      (renderLaunchConfig cfg).env =
        some (envl.map (fun kv => (kv.1, renderLaunchEnvValue kv.2))) ∧
      (envl.map (fun kv => (kv.1, renderLaunchEnvValue kv.2))).map Prod.fst =
        envl.map Prod.fst) ∧
    renderLaunchEnvValue .fls = .nullv ∧
    (∀ s, renderLaunchEnvValue (.str s) = .str s) := by
  refine ⟨?_, ?_, rfl, fun s => rfl⟩
  · intro cfg h
    simp [renderLaunchConfig, h]
  · intro cfg envl h
    refine ⟨?_, ?_, ?_⟩
    · simp [renderLaunchConfig, h]
    · simp [renderLaunchConfig, h]
    · simp [List.map_map]

theorem dropWhile_idem (p : Char → Bool) (l : List Char) :
    List.dropWhile p (List.dropWhile p l) = List.dropWhile p l := by
  induction l with
  | nil => rfl
  | cons x xs ih =>
      by_cases h : p x
      · simp [List.dropWhile_cons, h, ih]
      · simp [List.dropWhile_cons, h]

theorem trimEnd_trimEnd (s : List Char) : trimEnd (trimEnd s) = trimEnd s := by
  simp [trimEnd, dropWhile_idem]

theorem trimEnd_append_dot (t : List Char) :
    trimEnd (t ++ ['.']) = t ++ ['.'] := by
  simp [trimEnd, List.dropWhile_cons, isWsChar]

theorem endsWithDot_append_dot (t : List Char) :
    endsWithDot (t ++ ['.']) = true := by
  simp [endsWithDot, List.getLast?_append]

/-- C10: `WorkflowActions.createPullRequest` builds the commit message and PR body from the normalized description — trailing whitespace removed and a single period appended exactly when the trimmed text does not already end with a period — and this normalization is idempotent. -/
theorem createPullRequest_normalization :
    (∀ o : CreatePullRequestOptions,
      (createPullRequest o).body =
        prBodyFrom o.workflowName
          (normalizeDescriptionStr o.pullRequestDescription) ∧
      (createPullRequest o).commitMessage =
        o.pullRequestTitle ++ "\n\n" ++
          prBodyFrom o.workflowName
            (normalizeDescriptionStr o.pullRequestDescription)) ∧
    (∀ s : List Char, endsWithDot (trimEnd s) = true →
      normalizeDescription s = trimEnd s) ∧
    (∀ s : List Char, endsWithDot (trimEnd s) = false →
      normalizeDescription s = trimEnd s ++ ['.']) ∧
    (∀ s : List Char,
      normalizeDescription (normalizeDescription s) = normalizeDescription s) := by
  have hidem : ∀ s : List Char,
      normalizeDescription (normalizeDescription s) = normalizeDescription s := by
    intro s
    by_cases h : endsWithDot (trimEnd s)
    · have hs : normalizeDescription s = trimEnd s := by
        rw [normalizeDescription, if_pos h]
      rw [hs, normalizeDescription, trimEnd_trimEnd, if_pos h]
    · have hs : normalizeDescription s = trimEnd s ++ ['.'] := by
        rw [normalizeDescription, if_neg h]
      rw [hs, normalizeDescription, trimEnd_append_dot,
        if_pos (endsWithDot_append_dot _)]
  refine ⟨?_, ?_, ?_, hidem⟩
  · intro o
    constructor
    · rw [createPullRequest, normalizeDescriptionStr, normalizeDescription]
      by_cases h : endsWithDot (trimEnd o.pullRequestDescription.data)
      · rw [if_pos h, if_pos h]
      · rw [if_neg h, if_neg h]
        rfl
    · rw [createPullRequest, normalizeDescriptionStr, normalizeDescription]
      by_cases h : endsWithDot (trimEnd o.pullRequestDescription.data)
      · rw [if_pos h, if_pos h]
      · rw [if_neg h, if_neg h]
        rfl
  · intro s h
    rw [normalizeDescription, if_pos h]
  · intro s h
    rw [normalizeDescription, if_neg (by simp [h])]


/-- C3 witness: concrete layering instance evaluated through the theorem. -/
theorem env_layering_spec_witness :
    effectiveEnv ⟨fun _ _ _ => 0, [], fun _ => none, [("X", EnvValue.val "1")]⟩
      ⟨"t", none, none, [("X", EnvValue.val "2"), ("Y", EnvValue.val "3")],
        none, false, []⟩
      [("X", EnvValue.val "4")] "X" = some "4" ∧
    effectiveEnv ⟨fun _ _ _ => 0, [], fun _ => none, [("X", EnvValue.val "1")]⟩
      ⟨"t", none, none, [("X", EnvValue.val "2"), ("Y", EnvValue.val "3")],
        none, false, []⟩
      [("X", EnvValue.val "4")] "Y" = some "3" :=
  ⟨(env_layering_spec.2.2 _ _ rfl rfl).1, (env_layering_spec.2.2 _ _ rfl rfl).2.1⟩

/-- C9 witness: concrete entries with absent and present env. -/
theorem renderLaunchConfig_spec_witness :
    renderLaunchConfig ⟨sampleLaunchCore, none⟩ = ⟨sampleLaunchCore, none⟩ ∧
    (renderLaunchConfig ⟨sampleLaunchCore,
        some [("A", LaunchEnvValue.str "1"), ("B", LaunchEnvValue.fls)]⟩).env =
      some [("A", LaunchEnvValue.str "1"), ("B", LaunchEnvValue.nullv)] :=
  ⟨renderLaunchConfig_spec.1 _ rfl,
   (renderLaunchConfig_spec.2.1 _
      [("A", LaunchEnvValue.str "1"), ("B", LaunchEnvValue.fls)] rfl).2.1⟩

/-- C10 witness: concrete descriptions with and without a trailing period. -/
theorem createPullRequest_normalization_witness :
    (createPullRequest
        ⟨"upgrade", "chore(deps): upgrade", "Upgrades project dependencies"⟩).body =
      prBodyFrom "upgrade"
        (normalizeDescriptionStr "Upgrades project dependencies") ∧
    normalizeDescription "Fix stuff ".data = "Fix stuff.".data ∧
    normalizeDescription "Done.".data = "Done.".data ∧
    normalizeDescription (normalizeDescription "Fix stuff ".data) =
      normalizeDescription "Fix stuff ".data :=
  ⟨(createPullRequest_normalization.1 _).1,
   createPullRequest_normalization.2.2.1 _ (by decide),
   createPullRequest_normalization.2.1 _ (by decide),
   createPullRequest_normalization.2.2.2 _⟩


/-- C5: after `removeTask(n)`, `tryFind(n)` returns none; lookups of other names and other registered tasks are untouched — in particular Spawn steps referencing `n` stay in place, so running such a task afterwards fails with an `UnknownTask` resolution error at run time. -/
theorem removeTask_spec :
    (∀ (reg : Registry) (n : String), tryFind (removeTask reg n) n = none) ∧
    (∀ (reg : Registry) (n m : String), m ≠ n →
      tryFind (removeTask reg n) m = tryFind reg m) ∧
    (∀ (reg : Registry) (n : String) (t : Task), t ∈ reg → t.name ≠ n →
      t ∈ removeTask reg n) ∧
    (∀ (ctx : Ctx) (reg : Registry) (fuel : Nat) (n : String) (t : Task)
        (sargs : List String) (recv coe : Bool) (extraArgs : List String),
      tryFind (removeTask reg n) t.name = some t →
      t.condition = none →
      t.steps = [Step.spawn n sargs recv coe] →
      run ctx (removeTask reg n) (fuel + 2) t.name extraArgs =
        some (.error (.unknownTask n))) := by
  have part1 : ∀ (reg : Registry) (n : String),
      tryFind (removeTask reg n) n = none := by
    intro reg n
    rw [tryFind, List.find?_eq_none]
    intro x hx
    rw [removeTask, List.mem_filter] at hx
    simpa using hx.2
  refine ⟨part1, ?_, ?_, ?_⟩
  · intro reg n m hmn
    rw [tryFind, removeTask, List.find?_filter, tryFind]
    congr 1
    funext x
    by_cases hxm : x.name = m
    · simp [hxm, hmn]
    · simp [hxm]
  · intro reg n t ht hn
    rw [removeTask, List.mem_filter]
    exact ⟨ht, by simpa using hn⟩
  · intro ctx reg fuel n t sargs recv coe extraArgs hfind hcond hsteps
    show runName ctx (removeTask reg n) ((fuel + 1) + 1) [] extraArgs t.name = _
    simp [runName, hfind, hcond, hsteps, runStepsWith, execStep, part1 reg n]

/-- C5 witness: removing "build" and then running a task that spawns it. -/
theorem removeTask_spec_witness :
    tryFind
      (removeTask
        [⟨"build", none, none, [], none, false, []⟩,
         ⟨"user", none, none, [], none, false,
           [Step.spawn "build" [] false false]⟩] "build") "build" = none ∧
    run ⟨fun _ _ _ => 0, [], fun _ => none, []⟩
      (removeTask
        [⟨"build", none, none, [], none, false, []⟩,
         ⟨"user", none, none, [], none, false,
           [Step.spawn "build" [] false false]⟩] "build") 2 "user" [] =
      some (.error (.unknownTask "build")) :=
  ⟨removeTask_spec.1 _ _,
   removeTask_spec.2.2.2 _ _ 0 "build"
     ⟨"user", none, none, [], none, false, [Step.spawn "build" [] false false]⟩
     [] false false [] (by decide) rfl rfl⟩

/-- C4: when a task has a condition that exits non-zero, `run` returns the Skipped outcome — success, with zero recorded steps — regardless of the contents of the step list, and the condition execution is not recorded as a step. -/
theorem condition_skip :
    ∀ (ctx : Ctx) (reg : Registry) (fuel : Nat) (n cond : String) (t : Task)
      (extraArgs : List String),
      tryFind reg n = some t →
      t.condition = some cond →
      ctx.shell cond (taskEnv ctx t) t.cwd ≠ 0 →
      run ctx reg (fuel + 1) n extraArgs = some (.ok ⟨0, [], true⟩) := by
  intro ctx reg fuel n cond t extraArgs hfind hcond hsh
  simp [run, runName, hfind, hcond, hsh]

/-- C4 witness: a task whose condition exits 1 is skipped. -/
theorem condition_skip_witness :
    run ⟨fun _ _ _ => 1, [], fun _ => none, []⟩
      [⟨"t", none, some "false", [], none, false,
        [Step.exec "echo hi" [] none false]⟩] 1 "t" [] =
      some (.ok ⟨0, [], true⟩) :=
  condition_skip _ _ 0 "t" "false"
    ⟨"t", none, some "false", [], none, false,
      [Step.exec "echo hi" [] none false]⟩ [] rfl rfl (by decide)


theorem runStepsWith_stop (ctx : Ctx)
    (recur : List String → List String → String → Option (Except RunError Outcome))
    (t : Task) (tenv : EnvMap) (stack : List String) (args : List String)
    (pre : List Step) (cs : List Nat) (s : Step) (post : List Step)
    (c : Nat) (acc : List Nat)
    (hpre : List.Forall₂ (fun s' c' =>
      execStep ctx recur t tenv stack args s' = some (.ok c') ∧
      (c' = 0 ∨ s'.continueOnError = true ∨ t.continueOnError = true)) pre cs)
    (hs : execStep ctx recur t tenv stack args s = some (.ok c))
    (hc : c ≠ 0) (hsc : s.continueOnError = false)
    (htc : t.continueOnError = false) :
    runStepsWith ctx recur t tenv stack args (pre ++ s :: post) acc =
      some (.ok ⟨c, acc ++ (cs ++ [c]), false⟩) := by
  induction hpre generalizing acc with
  | nil =>
      simp only [List.nil_append, runStepsWith, hs]
      rw [if_pos ⟨hc, hsc, htc⟩]
  | cons hpair hrest ih =>
      rename_i a b l₁ l₂
      have hneg : ¬(b ≠ 0 ∧ a.continueOnError = false ∧
          t.continueOnError = false) := by
        rintro ⟨h1, h2, h3⟩
        rcases hpair.2 with h | h | h
        · exact h1 h
        · rw [h2] at h
          exact absurd h (by simp)
        · rw [h3] at h
          exact absurd h (by simp)
      simp only [List.cons_append, runStepsWith, hpair.1]
      rw [if_neg hneg]
      simpa using ih (acc ++ [b])

theorem runStepsWith_all_pass (ctx : Ctx)
    (recur : List String → List String → String → Option (Except RunError Outcome))
    (t : Task) (tenv : EnvMap) (stack : List String) (args : List String)
    (steps : List Step) (cs : List Nat) (acc : List Nat)
    (hall : List.Forall₂ (fun s' c' =>
      execStep ctx recur t tenv stack args s' = some (.ok c') ∧
      (c' = 0 ∨ s'.continueOnError = true ∨ t.continueOnError = true)) steps cs) :
    runStepsWith ctx recur t tenv stack args steps acc =
      some (.ok ⟨0, acc ++ cs, false⟩) := by
  induction hall generalizing acc with
  | nil => simp [runStepsWith]
  | cons hpair hrest ih =>
      rename_i a b l₁ l₂
      have hneg : ¬(b ≠ 0 ∧ a.continueOnError = false ∧
          t.continueOnError = false) := by
        rintro ⟨h1, h2, h3⟩
        rcases hpair.2 with h | h | h
        · exact h1 h
        · rw [h2] at h
          exact absurd h (by simp)
        · rw [h3] at h
          exact absurd h (by simp)
      simp only [runStepsWith, hpair.1]
      rw [if_neg hneg]
      rw [ih (acc ++ [b])]
      simp

/-- C2: if the step at position i exits non-zero and neither it nor the task is marked continueOnError, no later step runs, the run records exactly the steps up to and including i, and the task's result is that exit code; when every failure is covered by continueOnError, all steps run and the overall result is exit code 0. -/
theorem step_failure_semantics :
    (∀ (ctx : Ctx) (reg : Registry) (fuel : Nat) (n : String) (t : Task)
        (extraArgs : List String) (pre : List Step) (s : Step)
        (post : List Step) (cs : List Nat) (c : Nat),
      tryFind reg n = some t → t.condition = none →
      t.steps = pre ++ s :: post →
      List.Forall₂ (fun s' c' =>
        execStep ctx (fun st x m => runName ctx reg fuel st x m) t
            (taskEnv ctx t) [n] extraArgs s' = some (.ok c') ∧
        (c' = 0 ∨ s'.continueOnError = true ∨ t.continueOnError = true)) pre cs →
      execStep ctx (fun st x m => runName ctx reg fuel st x m) t
          (taskEnv ctx t) [n] extraArgs s = some (.ok c) →
      c ≠ 0 → s.continueOnError = false → t.continueOnError = false →
      run ctx reg (fuel + 1) n extraArgs = some (.ok ⟨c, cs ++ [c], false⟩)) ∧
    (∀ (ctx : Ctx) (reg : Registry) (fuel : Nat) (n : String) (t : Task)
        (extraArgs : List String) (cs : List Nat),
      tryFind reg n = some t → t.condition = none →
      List.Forall₂ (fun s' c' =>
        execStep ctx (fun st x m => runName ctx reg fuel st x m) t
            (taskEnv ctx t) [n] extraArgs s' = some (.ok c') ∧
        (c' = 0 ∨ s'.continueOnError = true ∨ t.continueOnError = true))
        t.steps cs →
      run ctx reg (fuel + 1) n extraArgs = some (.ok ⟨0, cs, false⟩)) := by
  constructor
  · intro ctx reg fuel n t extraArgs pre s post cs c hfind hcond hsteps
      hpre hs hc hsc htc
    simp only [run, runName, hfind, hcond, hsteps, List.nil_append]
    exact runStepsWith_stop ctx _ t (taskEnv ctx t) [n] extraArgs pre cs s
      post c [] hpre hs hc hsc htc |>.trans (by simp)
  · intro ctx reg fuel n t extraArgs cs hfind hcond hall
    simp only [run, runName, hfind, hcond, List.nil_append]
    exact runStepsWith_all_pass ctx _ t (taskEnv ctx t) [n] extraArgs t.steps
      cs [] hall |>.trans (by simp)


/-- C2 witness: a failing step without continueOnError stops the task with its exit code; with continueOnError the task continues and succeeds. -/
theorem step_failure_semantics_witness :
    run ⟨fun cmd _ _ => if cmd = "exit 1" then 1 else 0, [], fun _ => none, []⟩
      [⟨"c", none, none, [], none, false,
        [Step.exec "exit 1" [] none false, Step.exec "echo ok" [] none false]⟩]
      1 "c" [] = some (.ok ⟨1, [1], false⟩) ∧
    run ⟨fun cmd _ _ => if cmd = "exit 1" then 1 else 0, [], fun _ => none, []⟩
      [⟨"d", none, none, [], none, false,
        [Step.exec "exit 1" [] none true, Step.exec "echo ok" [] none false]⟩]
      1 "d" [] = some (.ok ⟨0, [1, 0], false⟩) :=
  ⟨step_failure_semantics.1
     ⟨fun cmd _ _ => if cmd = "exit 1" then 1 else 0, [], fun _ => none, []⟩
     [⟨"c", none, none, [], none, false,
       [Step.exec "exit 1" [] none false, Step.exec "echo ok" [] none false]⟩]
     0 "c"
     ⟨"c", none, none, [], none, false,
       [Step.exec "exit 1" [] none false, Step.exec "echo ok" [] none false]⟩
     [] [] (Step.exec "exit 1" [] none false) [Step.exec "echo ok" [] none false]
     [] 1 rfl rfl rfl List.Forall₂.nil rfl (by decide) rfl rfl,
   step_failure_semantics.2
     ⟨fun cmd _ _ => if cmd = "exit 1" then 1 else 0, [], fun _ => none, []⟩
     [⟨"d", none, none, [], none, false,
       [Step.exec "exit 1" [] none true, Step.exec "echo ok" [] none false]⟩]
     0 "d"
     ⟨"d", none, none, [], none, false,
       [Step.exec "exit 1" [] none true, Step.exec "echo ok" [] none false]⟩
     [] [1, 0] rfl rfl
     (List.Forall₂.cons ⟨rfl, Or.inr (Or.inl rfl)⟩
       (List.Forall₂.cons ⟨rfl, Or.inl rfl⟩ List.Forall₂.nil))⟩

/-- C1 (amended): for distinct registered tasks A and B without conditions whose first steps are the mutual Spawn references, `run(A)` fails with `CyclicTaskGraph` naming the call-stack path [A, B, A]; the check happens dynamically, by membership of the task name in the call stack, before descending. -/
theorem cyclic_mutual_spawn :
    ∀ (ctx : Ctx) (reg : Registry) (fuel : Nat) (a b : String) (A B : Task)
      (aArgs bArgs : List String) (aRecv bRecv aCoe bCoe : Bool)
      (restA restB : List Step) (extraArgs : List String),
      tryFind reg a = some A → tryFind reg b = some B → a ≠ b →
      A.condition = none → B.condition = none →
      A.steps = Step.spawn b aArgs aRecv aCoe :: restA →
      B.steps = Step.spawn a bArgs bRecv bCoe :: restB →
      run ctx reg (fuel + 3) a extraArgs =
        some (.error (.cyclicTaskGraph [a, b, a])) := by
  intro ctx reg fuel a b A B aArgs bArgs aRecv bRecv aCoe bCoe restA restB
    extraArgs ha hb hab hAc hBc hAs hBs
  show runName ctx reg ((fuel + 2) + 1) [] extraArgs a = _
  simp [runName, ha, hb, hAc, hBc, hAs, hBs, runStepsWith, execStep,
    Ne.symm hab]

/-- C1 witness: a concrete mutual-spawn pair triggers `CyclicTaskGraph` with path [a, b, a]. -/
theorem cyclic_mutual_spawn_witness :
    run ⟨fun _ _ _ => 0, [], fun _ => none, []⟩
      [⟨"a", none, none, [], none, false, [Step.spawn "b" [] false false]⟩,
       ⟨"b", none, none, [], none, false, [Step.spawn "a" [] false false]⟩]
      3 "a" [] = some (.error (.cyclicTaskGraph ["a", "b", "a"])) :=
  cyclic_mutual_spawn
    ⟨fun _ _ _ => 0, [], fun _ => none, []⟩
    [⟨"a", none, none, [], none, false, [Step.spawn "b" [] false false]⟩,
     ⟨"b", none, none, [], none, false, [Step.spawn "a" [] false false]⟩]
    0 "a" "b"
    ⟨"a", none, none, [], none, false, [Step.spawn "b" [] false false]⟩
    ⟨"b", none, none, [], none, false, [Step.spawn "a" [] false false]⟩
    [] [] false false false false [] [] []
    rfl rfl (by decide) rfl rfl rfl rfl

/-- C1 counterexample to the unamended claim: with a failing condition on A (first pair) or an aborting earlier step in A (second pair), run(A) does not produce `CyclicTaskGraph` even though A and B spawn each other. -/
theorem cyclic_claim_counterexample :
    (run ⟨fun _ _ _ => 1, [], fun _ => none, []⟩
        [⟨"a", none, some "test -f gate", [], none, false,
          [Step.spawn "b" [] false false]⟩,
         ⟨"b", none, none, [], none, false,
          [Step.spawn "a" [] false false]⟩]
        5 "a" [] = some (.ok ⟨0, [], true⟩) ∧
      run ⟨fun _ _ _ => 1, [], fun _ => none, []⟩
        [⟨"a", none, some "test -f gate", [], none, false,
          [Step.spawn "b" [] false false]⟩,
         ⟨"b", none, none, [], none, false,
          [Step.spawn "a" [] false false]⟩]
        5 "a" [] ≠ some (.error (.cyclicTaskGraph ["a", "b", "a"]))) ∧
    (run ⟨fun _ _ _ => 1, [], fun _ => none, []⟩
        [⟨"a2", none, none, [], none, false,
          [Step.exec "exit 1" [] none false, Step.spawn "b2" [] false false]⟩,
         ⟨"b2", none, none, [], none, false,
          [Step.spawn "a2" [] false false]⟩]
        5 "a2" [] = some (.ok ⟨1, [1], false⟩) ∧
      run ⟨fun _ _ _ => 1, [], fun _ => none, []⟩
        [⟨"a2", none, none, [], none, false,
          [Step.exec "exit 1" [] none false, Step.spawn "b2" [] false false]⟩,
         ⟨"b2", none, none, [], none, false,
          [Step.spawn "a2" [] false false]⟩]
        5 "a2" [] ≠ some (.error (.cyclicTaskGraph ["a2", "b2", "a2"]))) :=
  ⟨⟨rfl, fun h => Except.noConfusion (Option.some.inj h)⟩,
   ⟨rfl, fun h => Except.noConfusion (Option.some.inj h)⟩⟩


theorem dropLead?_append (pre l : Segs) : dropLead? pre (pre ++ l) = some l := by
  induction pre with
  | nil => rfl
  | cons p ps ih => simp [dropLead?, ih]

theorem lookupFile_eq_none_iff (files : List (Segs × Nat)) (p : Segs) :
    lookupFile files p = none ↔ countFile files p = 0 := by
  induction files with
  | nil => simp [lookupFile, countFile]
  | cons f rest ih =>
      by_cases h : f.1 = p
      · simp [lookupFile, countFile, List.find?_cons, List.filter_cons, h]
      · simp [lookupFile, countFile, List.find?_cons, List.filter_cons, h, ih]

theorem findSome?_eq_some_of_unique {α β : Type} (l : List α) (f : α → Option β)
    (x : α) (a : β) (hx : x ∈ l) (hfx : f x = some a)
    (huniq : ∀ y ∈ l, y ≠ x → f y = none) : l.findSome? f = some a := by
  induction l with
  | nil => cases hx
  | cons z zs ih =>
      by_cases hz : z = x
      · subst hz
        simp [List.findSome?, hfx]
      · have hnone : f z = none := huniq z (List.mem_cons_self z zs) hz
        rw [List.findSome?, hnone]
        refine ih ?_ (fun y hy hne => huniq y (List.mem_cons_of_mem z hy) hne)
        rcases List.mem_cons.1 hx with h | h
        · exact absurd h.symm hz
        · exact h

theorem removeFile_map_fst (files : List (Segs × Nat)) (p : Segs) :
    (removeFile files p).map (·.1) = lookupFile files p := by
  induction files with
  | nil => rfl
  | cons f rest ih =>
      by_cases h : f.1 = p
      · simp [removeFile, h, lookupFile, List.find?_cons]
      · have hlk : lookupFile (f :: rest) p = lookupFile rest p := by
          simp [lookupFile, List.find?_cons, h]
        rw [hlk, ← ih, removeFile, if_neg h]
        cases hr : removeFile rest p with
        | none => rfl
        | some pr =>
            obtain ⟨a₂, rest'⟩ := pr
            rfl

theorem SubProj.removeIn_fst (s : SubProj) (p : Segs) :
    (s.removeIn p).map (·.1) = s.findIn p := by
  cases hd : dropLead? s.relOutdir p with
  | none => simp [SubProj.removeIn, SubProj.findIn, hd]
  | some rest =>
      simp only [SubProj.removeIn, SubProj.findIn, hd]
      rw [← removeFile_map_fst]
      cases hr : removeFile s.files rest with
      | none => simp [hr]
      | some pr =>
          obtain ⟨a₂, files'⟩ := pr
          simp [hr]

theorem removeInSubs_fst (subs : List SubProj) (p : Segs) :
    (removeInSubs subs p).map (·.1) = subs.findSome? (fun s => s.findIn p) := by
  induction subs with
  | nil => rfl
  | cons s rest ih =>
      have hfst := SubProj.removeIn_fst s p
      cases hi : s.removeIn p with
      | some pr =>
          obtain ⟨a₂, s'⟩ := pr
          rw [hi] at hfst
          simp only [removeInSubs, List.findSome?, hi, ← hfst]
          rfl
      | none =>
          rw [hi] at hfst
          simp only [removeInSubs, List.findSome?, hi, ← hfst]
          cases hr : removeInSubs rest p with
          | none =>
              rw [← ih, hr]
              simp
          | some pr =>
              obtain ⟨a₂, rest'⟩ := pr
              rw [← ih, hr]
              simp

theorem tryRemoveFile_fst (pr : Proj) (p : PPath) :
    (pr.tryRemoveFile p).1 = pr.tryFindFile p := by
  cases hres : resolveRel pr p with
  | none => simp [Proj.tryRemoveFile, Proj.tryFindFile, hres]
  | some rp =>
      simp only [Proj.tryRemoveFile, Proj.tryFindFile, hres]
      have hown := removeFile_map_fst pr.files rp
      cases hr : removeFile pr.files rp with
      | some prr =>
          obtain ⟨a₂, files'⟩ := prr
          rw [hr] at hown
          simp [hr, ← hown]
      | none =>
          rw [hr] at hown
          have hsubs := removeInSubs_fst pr.subs rp
          cases hs : removeInSubs pr.subs rp with
          | none =>
              rw [hs] at hsubs
              simp [hr, hs, ← hown, ← hsubs]
          | some prr =>
              obtain ⟨a₂, subs'⟩ := prr
              rw [hs] at hsubs
              simp [hr, hs, ← hown, ← hsubs]


theorem removeFile_count (files : List (Segs × Nat)) (p : Segs) (a : Nat)
    (files' : List (Segs × Nat)) (h : removeFile files p = some (a, files')) :
    countFile files' p + 1 = countFile files p := by
  induction files generalizing files' with
  | nil => cases h
  | cons f rest ih =>
      by_cases hf : f.1 = p
      · rw [removeFile, if_pos hf] at h
        simp only [Option.some.injEq, Prod.mk.injEq] at h
        obtain ⟨h1, h2⟩ := h
        subst h2
        simp [countFile, List.filter_cons, hf]
      · rw [removeFile, if_neg hf] at h
        cases hr : removeFile rest p with
        | none => rw [hr] at h; cases h
        | some prr =>
            obtain ⟨a₃, rest'⟩ := prr
            rw [hr] at h
            simp only [Option.some.injEq, Prod.mk.injEq] at h
            obtain ⟨h1, h2⟩ := h
            subst h1
            subst h2
            have := ih rest' hr
            simp only [countFile, List.filter_cons, hf] at *
            simpa using this

theorem SubProj.removeIn_count (s : SubProj) (p : Segs) (a : Nat) (s' : SubProj)
    (h : s.removeIn p = some (a, s')) :
    s'.countIn p + 1 = s.countIn p := by
  cases hd : dropLead? s.relOutdir p with
  | none =>
      simp only [SubProj.removeIn, hd] at h
      cases h
  | some rest =>
      simp only [SubProj.removeIn, hd] at h
      cases hr : removeFile s.files rest with
      | none => simp [hr] at h
      | some prr =>
          obtain ⟨a₃, files'⟩ := prr
          simp only [hr, Option.some.injEq, Prod.mk.injEq] at h
          obtain ⟨h1, h2⟩ := h
          subst h2
          simp only [SubProj.countIn, hd]
          exact removeFile_count s.files rest a₃ files' hr

theorem removeInSubs_count (subs : List SubProj) (p : Segs) (a : Nat)
    (subs' : List SubProj) (h : removeInSubs subs p = some (a, subs')) :
    (subs'.map (·.countIn p)).sum + 1 = (subs.map (·.countIn p)).sum := by
  induction subs generalizing subs' with
  | nil => cases h
  | cons s rest ih =>
      rw [removeInSubs] at h
      cases hi : s.removeIn p with
      | some prr =>
          obtain ⟨a₃, s₂⟩ := prr
          rw [hi] at h
          simp only [Option.some.injEq, Prod.mk.injEq] at h
          obtain ⟨h1, h2⟩ := h
          subst h2
          have := SubProj.removeIn_count s p a₃ s₂ hi
          simp only [List.map_cons, List.sum_cons]
          omega
      | none =>
          rw [hi] at h
          cases hr : removeInSubs rest p with
          | none => rw [hr] at h; cases h
          | some prr =>
              obtain ⟨a₃, rest'⟩ := prr
              rw [hr] at h
              simp only [Option.some.injEq, Prod.mk.injEq] at h
              obtain ⟨h1, h2⟩ := h
              subst h1
              subst h2
              have := ih rest' hr
              simp only [List.map_cons, List.sum_cons]
              omega

theorem SubProj.findIn_eq_none_iff (s : SubProj) (p : Segs) :
    s.findIn p = none ↔ s.countIn p = 0 := by
  cases hd : dropLead? s.relOutdir p with
  | none => simp [SubProj.findIn, SubProj.countIn, hd]
  | some rest =>
      simp only [SubProj.findIn, SubProj.countIn, hd]
      exact lookupFile_eq_none_iff s.files rest

theorem tryFindFile_eq_none_iff (pr : Proj) (p : PPath) :
    pr.tryFindFile p = none ↔ pr.matchCount p = 0 := by
  cases hres : resolveRel pr p with
  | none => simp [Proj.tryFindFile, Proj.matchCount, hres]
  | some rp =>
      simp only [Proj.tryFindFile, Proj.matchCount, hres]
      cases hlk : lookupFile pr.files rp with
      | some a =>
          have hc : countFile pr.files rp ≠ 0 := by
            intro h0
            rw [(lookupFile_eq_none_iff pr.files rp).mpr h0] at hlk
            cases hlk
          simp [hc]
      | none =>
          have h0 : countFile pr.files rp = 0 :=
            (lookupFile_eq_none_iff pr.files rp).mp hlk
          rw [h0]
          simp only [List.findSome?_eq_none_iff, Nat.zero_add]
          constructor
          · intro h
            apply List.sum_eq_zero
            intro x hx
            rw [List.mem_map] at hx
            obtain ⟨s, hs, rfl⟩ := hx
            exact (SubProj.findIn_eq_none_iff s rp).mp (h s hs)
          · intro h s hs
            apply (SubProj.findIn_eq_none_iff s rp).mpr
            exact List.sum_eq_zero_iff.mp h _ (List.mem_map_of_mem _ hs)


theorem removeFile_eq_none_iff (files : List (Segs × Nat)) (p : Segs) :
    removeFile files p = none ↔ countFile files p = 0 := by
  rw [← lookupFile_eq_none_iff, ← removeFile_map_fst]
  exact Option.map_eq_none'.symm

theorem removeInSubs_eq_none (subs : List SubProj) (p : Segs)
    (h : ∀ s ∈ subs, s.removeIn p = none) : removeInSubs subs p = none := by
  induction subs with
  | nil => rfl
  | cons s rest ih =>
      simp only [removeInSubs, h s (List.mem_cons_self s rest),
        ih (fun y hy => h y (List.mem_cons_of_mem s hy))]

theorem tryRemoveFile_of_matchCount_zero (pr : Proj) (p : PPath)
    (h : pr.matchCount p = 0) : pr.tryRemoveFile p = (none, pr) := by
  cases hres : resolveRel pr p with
  | none => simp [Proj.tryRemoveFile, hres]
  | some rp =>
      simp only [Proj.matchCount, hres] at h
      have hown : countFile pr.files rp = 0 := by omega
      have hsub : (pr.subs.map (·.countIn rp)).sum = 0 := by omega
      have hrf : removeFile pr.files rp = none :=
        (removeFile_eq_none_iff _ _).mpr hown
      have hrs : removeInSubs pr.subs rp = none := by
        apply removeInSubs_eq_none
        intro s hs
        have hc : s.countIn rp = 0 :=
          List.sum_eq_zero_iff.mp hsub _ (List.mem_map_of_mem _ hs)
        have hm : (s.removeIn rp).map (·.1) = none := by
          rw [SubProj.removeIn_fst]
          exact (SubProj.findIn_eq_none_iff s rp).mpr hc
        exact Option.map_eq_none'.mp hm
      simp [Proj.tryRemoveFile, hres, hrf, hrs]

theorem matchCount_tryRemoveFile (pr : Proj) (p : PPath) (a : Nat)
    (h : (pr.tryRemoveFile p).1 = some a) :
    (pr.tryRemoveFile p).2.matchCount p + 1 = pr.matchCount p := by
  cases hres : resolveRel pr p with
  | none => simp [Proj.tryRemoveFile, hres] at h
  | some rp =>
      cases hr : removeFile pr.files rp with
      | some prr =>
          obtain ⟨a₂, files'⟩ := prr
          have hsnd : (pr.tryRemoveFile p).2 = ⟨pr.outdir, files', pr.subs⟩ := by
            simp [Proj.tryRemoveFile, hres, hr]
          rw [hsnd]
          have hresn :
              resolveRel (⟨pr.outdir, files', pr.subs⟩ : Proj) p = some rp := by
            cases p with
            | rel q => exact hres
            | abs q => exact hres
          simp only [Proj.matchCount, hresn, hres]
          have := removeFile_count pr.files rp a₂ files' hr
          omega
      | none =>
          cases hs : removeInSubs pr.subs rp with
          | none => simp [Proj.tryRemoveFile, hres, hr, hs] at h
          | some prr =>
              obtain ⟨a₂, subs'⟩ := prr
              have hsnd :
                  (pr.tryRemoveFile p).2 = ⟨pr.outdir, pr.files, subs'⟩ := by
                simp [Proj.tryRemoveFile, hres, hr, hs]
              rw [hsnd]
              have hresn :
                  resolveRel (⟨pr.outdir, pr.files, subs'⟩ : Proj) p =
                    some rp := by
                cases p with
                | rel q => exact hres
                | abs q => exact hres
              simp only [Proj.matchCount, hresn, hres]
              have := removeInSubs_count pr.subs rp a₂ subs' hs
              omega

theorem lookupFile_append_self (files : List (Segs × Nat)) (p : Segs) (a : Nat)
    (h : countFile files p = 0) :
    lookupFile (files ++ [(p, a)]) p = some a := by
  have hl : lookupFile files p = none := (lookupFile_eq_none_iff _ _).mpr h
  have hfind : List.find? (fun f => decide (f.1 = p)) files = none := by
    rw [lookupFile] at hl
    exact Option.map_eq_none'.mp hl
  rw [lookupFile, List.find?_append, hfind]
  simp [List.find?]


theorem resolveRel_congr_outdir (pr₁ pr₂ : Proj) (p : PPath)
    (h : pr₁.outdir = pr₂.outdir) : resolveRel pr₁ p = resolveRel pr₂ p := by
  cases p with
  | rel q => rfl
  | abs q => simp [resolveRel, h]

theorem tryRemoveFile_outdir (pr : Proj) (p : PPath) :
    (pr.tryRemoveFile p).2.outdir = pr.outdir := by
  cases hres : resolveRel pr p with
  | none => simp [Proj.tryRemoveFile, hres]
  | some rp =>
      cases hr : removeFile pr.files rp with
      | some prr =>
          obtain ⟨x, y⟩ := prr
          simp [Proj.tryRemoveFile, hres, hr]
      | none =>
          cases hs : removeInSubs pr.subs rp with
          | none => simp [Proj.tryRemoveFile, hres, hr, hs]
          | some prr =>
              obtain ⟨x, y⟩ := prr
              simp [Proj.tryRemoveFile, hres, hr, hs]

/-- C6: `tryFindFile` returns a registered artifact both under its project-relative path and under the absolute path below the project's output directory, finds artifacts of a nested sub-project when the path is led by the sub-project's relative output directory, and returns none exactly when no registered artifact matches. -/
theorem tryFindFile_spec :
    (∀ (pr : Proj) (rp : Segs) (a : Nat),
      lookupFile pr.files rp = some a →
      pr.tryFindFile (.rel rp) = some a ∧
      pr.tryFindFile (.abs (pr.outdir ++ rp)) = some a) ∧
    (∀ (pr : Proj) (s : SubProj) (rp : Segs) (a : Nat),
      s ∈ pr.subs →
      lookupFile pr.files (s.relOutdir ++ rp) = none →
      lookupFile s.files rp = some a →
      (∀ s' ∈ pr.subs, s' ≠ s → s'.findIn (s.relOutdir ++ rp) = none) →
      pr.tryFindFile (.rel (s.relOutdir ++ rp)) = some a ∧
      pr.tryFindFile (.abs (pr.outdir ++ (s.relOutdir ++ rp))) = some a) ∧
    (∀ (pr : Proj) (p : PPath),
      pr.tryFindFile p = none ↔ pr.matchCount p = 0) := by
  have habs : ∀ (pr : Proj) (q : Segs),
      pr.tryFindFile (.abs (pr.outdir ++ q)) = pr.tryFindFile (.rel q) := by
    intro pr q
    simp [Proj.tryFindFile, resolveRel, dropLead?_append]
  refine ⟨?_, ?_, tryFindFile_eq_none_iff⟩
  · intro pr rp a hlk
    have hrel : pr.tryFindFile (.rel rp) = some a := by
      simp [Proj.tryFindFile, resolveRel, hlk]
    exact ⟨hrel, (habs pr rp).trans hrel⟩
  · intro pr s rp a hmem hown hsub huniq
    have hfindIn : s.findIn (s.relOutdir ++ rp) = some a := by
      simp [SubProj.findIn, dropLead?_append, hsub]
    have hrel : pr.tryFindFile (.rel (s.relOutdir ++ rp)) = some a := by
      simp only [Proj.tryFindFile, resolveRel, hown]
      exact findSome?_eq_some_of_unique pr.subs _ s a hmem hfindIn huniq
    exact ⟨hrel, (habs pr (s.relOutdir ++ rp)).trans hrel⟩

/-- C6 witness: concrete project with one file and one sub-project. -/
theorem tryFindFile_spec_witness :
    Proj.tryFindFile
      ⟨["root"], [(["your", "file", "me.json"], 7)],
       [⟨["sub", "foo"], [(["fchild.txt"], 9)]⟩]⟩
      (.rel ["your", "file", "me.json"]) = some 7 ∧
    Proj.tryFindFile
      ⟨["root"], [(["your", "file", "me.json"], 7)],
       [⟨["sub", "foo"], [(["fchild.txt"], 9)]⟩]⟩
      (.abs ["root", "your", "file", "me.json"]) = some 7 ∧
    Proj.tryFindFile
      ⟨["root"], [(["your", "file", "me.json"], 7)],
       [⟨["sub", "foo"], [(["fchild.txt"], 9)]⟩]⟩
      (.rel ["sub", "foo", "fchild.txt"]) = some 9 ∧
    Proj.matchCount
      ⟨["root"], [(["your", "file", "me.json"], 7)],
       [⟨["sub", "foo"], [(["fchild.txt"], 9)]⟩]⟩
      (.rel ["nope"]) = 0 :=
  ⟨(tryFindFile_spec.1
      ⟨["root"], [(["your", "file", "me.json"], 7)],
       [⟨["sub", "foo"], [(["fchild.txt"], 9)]⟩]⟩
      ["your", "file", "me.json"] 7 rfl).1,
   (tryFindFile_spec.1
      ⟨["root"], [(["your", "file", "me.json"], 7)],
       [⟨["sub", "foo"], [(["fchild.txt"], 9)]⟩]⟩
      ["your", "file", "me.json"] 7 rfl).2,
   (tryFindFile_spec.2.1
      ⟨["root"], [(["your", "file", "me.json"], 7)],
       [⟨["sub", "foo"], [(["fchild.txt"], 9)]⟩]⟩
      ⟨["sub", "foo"], [(["fchild.txt"], 9)]⟩
      ["fchild.txt"] 9 (by decide) rfl rfl (by decide)).1,
   (tryFindFile_spec.2.2
      ⟨["root"], [(["your", "file", "me.json"], 7)],
       [⟨["sub", "foo"], [(["fchild.txt"], 9)]⟩]⟩
      (.rel ["nope"])).mp rfl⟩

/-- C7: the first `tryRemoveFile` on a uniquely registered path returns the artifact and removes it, the second call returns none and leaves the project unchanged, and registering a new artifact at the path afterwards makes `tryFindFile` return the new artifact. -/
theorem tryRemoveFile_spec :
    ∀ (pr : Proj) (p : PPath) (a : Nat) (rp : Segs) (a' : Nat),
      pr.tryFindFile p = some a →
      pr.matchCount p = 1 →
      resolveRel pr p = some rp →
      (pr.tryRemoveFile p).1 = some a ∧
      (pr.tryRemoveFile p).2.tryFindFile p = none ∧
      (pr.tryRemoveFile p).2.tryRemoveFile p = (none, (pr.tryRemoveFile p).2) ∧
      ((pr.tryRemoveFile p).2.addFile rp a').tryFindFile p = some a' := by
  intro pr p a rp a' hfind hcount hres
  have h1 : (pr.tryRemoveFile p).1 = some a :=
    (tryRemoveFile_fst pr p).trans hfind
  have hdec := matchCount_tryRemoveFile pr p a h1
  have h0 : (pr.tryRemoveFile p).2.matchCount p = 0 := by omega
  have h2 : (pr.tryRemoveFile p).2.tryFindFile p = none :=
    (tryFindFile_eq_none_iff _ _).mpr h0
  have h3 := tryRemoveFile_of_matchCount_zero _ _ h0
  refine ⟨h1, h2, h3, ?_⟩
  have houtdir : (pr.tryRemoveFile p).2.outdir = pr.outdir :=
    tryRemoveFile_outdir pr p
  have hres' : resolveRel (pr.tryRemoveFile p).2 p = some rp :=
    (resolveRel_congr_outdir _ pr p houtdir).trans hres
  have hresadd :
      resolveRel ((pr.tryRemoveFile p).2.addFile rp a') p = some rp :=
    (resolveRel_congr_outdir _ pr p
      (by simpa [Proj.addFile] using houtdir)).trans hres
  have hcount0 : countFile (pr.tryRemoveFile p).2.files rp = 0 := by
    have h0' := h0
    simp only [Proj.matchCount, hres'] at h0'
    omega
  simp only [Proj.tryFindFile, hresadd]
  simp only [Proj.addFile]
  rw [lookupFile_append_self ((pr.tryRemoveFile p).2.files) rp a' hcount0]

/-- C7 witness: remove, re-remove and re-register a concrete file. -/
theorem tryRemoveFile_spec_witness :
    ((⟨["root"], [(["f.txt"], 3)], []⟩ : Proj).tryRemoveFile
        (.rel ["f.txt"])).1 = some 3 ∧
    ((⟨["root"], [(["f.txt"], 3)], []⟩ : Proj).tryRemoveFile
        (.rel ["f.txt"])).2.tryFindFile (.rel ["f.txt"]) = none ∧
    ((⟨["root"], [(["f.txt"], 3)], []⟩ : Proj).tryRemoveFile
        (.rel ["f.txt"])).2.tryRemoveFile (.rel ["f.txt"]) =
      (none, ((⟨["root"], [(["f.txt"], 3)], []⟩ : Proj).tryRemoveFile
        (.rel ["f.txt"])).2) ∧
    (((⟨["root"], [(["f.txt"], 3)], []⟩ : Proj).tryRemoveFile
        (.rel ["f.txt"])).2.addFile ["f.txt"] 5).tryFindFile
      (.rel ["f.txt"]) = some 5 :=
  tryRemoveFile_spec ⟨["root"], [(["f.txt"], 3)], []⟩ (.rel ["f.txt"])
    3 ["f.txt"] 5 rfl rfl rfl

end Projen
